import Mathlib

/-!
Verification development for the numerical-integration backend
(`backend/main.py`): a shallow embedding of its quadrature strategies
(`TrapezoidalIntegration`, `SimpsonIntegration`, `MidpointIntegration`,
`MonteCarloIntegration`), of the expression compiler
(`IntegrationService.create_function`) and of the service dispatch
(`IntegrationService.integrate`), together with theorems settling the
spec claims about them.

Modelling conventions:
* Python/NumPy floating-point numbers are modelled as exact rationals
  (`ℚ`); Lean's `q / 0 = 0` convention is relied on only outside the
  validated input domain, except where noted.  A small IEEE-style type
  `FP` is used for the one claim whose content is a NaN.
* NumPy's global random generator is modelled as an explicit stream
  `us : ℕ → ℚ` of unit-interval draws; `np.random.uniform(a, b, n)`
  reads `n` entries of the stream.
* A Python `Callable` handed to a strategy may raise; it is modelled as
  `ℚ → Except PyExc ℚ`.  Pure wrappers over `ℚ → ℚ` cover the
  non-raising case.
-/

namespace NumInt

/-! ## Python-level values and exceptions (for the expression evaluator) -/

/-- Exceptions that the modelled Python fragments can raise. -/
inductive PyExc where
  | zeroDivision
  | nameError (name : String)
  | typeError
  | attributeError
deriving DecidableEq

/-- Runtime values of the modelled Python expression fragment: numbers,
string literals, the NumPy math functions bound in `allowed_names`,
objects leaked from the builtins module, imported modules, and a
generic object (result of attribute lookup). -/
inductive PyVal where
  | num (q : ℚ)
  | str (s : String)
  | mathFun (name : String)
  | builtinObj (name : String)
  | module (name : String)
  | obj
deriving DecidableEq

/-- Interpretation of the NumPy scalar math the evaluator can reach.
`fn` interprets the allow-listed unary ufuncs (`np.sin`, …), which are
total on scalars (they return `nan`/`inf` as values and never raise);
`const` interprets `np.pi`/`np.e`; `rpow` interprets `**` with a
non-integer exponent.  The claims under verification never depend on
the numeric values of these, only on their totality, so they are
parameters of the embedding. -/
structure NumpyEnv where
  fn : String → ℚ → ℚ
  const : String → ℚ
  rpow : ℚ → ℚ → ℚ

/-- Abstract syntax of the Python expression `func_str` after parsing
(the body of `lambda x: {func_str}` — a plain Python expression). -/
inductive PyExpr where
  | num (q : ℚ)
  | strLit (s : String)
  | var (name : String)
  | call (fn : PyExpr) (arg : PyExpr)
  | add (l r : PyExpr)
  | sub (l r : PyExpr)
  | mul (l r : PyExpr)
  | div (l r : PyExpr)
  | pow (l r : PyExpr)
  | neg (e : PyExpr)
  | attr (e : PyExpr) (field : String)

/-- The names bound to NumPy functions in the `allowed_names` dict of
`create_function` (`sin, cos, tan, exp, log, sqrt`). -/
def allowedFunNames : List String := ["sin", "cos", "tan", "exp", "log", "sqrt"]

/-- The names bound to constants in the `allowed_names` dict (`pi`, `e`). -/
def allowedConstNames : List String := ["pi", "e"]

/-- Names resolvable through the `__builtins__` entry that CPython
inserts into the globals dict passed to `eval` whenever that dict has
no `__builtins__` key — which is exactly the situation in
`create_function`, whose `allowed_names` dict has no such key.  A
representative subset of the builtins module namespace; the real set
is far larger, and every name listed here is in it. -/
def builtinNames : List String :=
  ["__import__", "abs", "min", "max", "len", "getattr", "open", "print", "int", "float"]

/-- Evaluate a binary arithmetic operator on two Python values
(numeric operands only; other operand combinations are modelled as a
`TypeError`, which no claim exercises). -/
def numBinop (op : ℚ → ℚ → ℚ) : PyVal → PyVal → Except PyExc PyVal
  | .num p, .num q => .ok (.num (op p q))
  | _, _ => .error .typeError

/-- Evaluate the lambda body at argument `x`, resolving names the way
`eval(func_code, allowed_names, allowed_names)` does: the lambda
parameter `x` first, then the `allowed_names` dict (globals/locals),
then the builtins namespace injected by CPython (see `builtinNames`);
anything else raises `NameError`.  Arithmetic follows plain Python
float semantics, the ones in force at the smoke evaluation
`func(0.0)`: division by zero and `0.0 ** negative` raise
`ZeroDivisionError`; `**` with non-integer exponent is interpreted by
`env.rpow`.  Attribute lookup is available (modelled for the
universally present `__class__`); `__import__` applied to a string
returns a module object. -/
def evalPyExpr (env : NumpyEnv) (x : ℚ) : PyExpr → Except PyExc PyVal
  | .num q => .ok (.num q)
  | .strLit s => .ok (.str s)
  | .var n =>
      if n = "x" then .ok (.num x)
      else if n ∈ allowedFunNames then .ok (.mathFun n)
      else if n ∈ allowedConstNames then .ok (.num (env.const n))
      else if n ∈ builtinNames then .ok (.builtinObj n)
      else .error (.nameError n)
  | .call f a =>
      match evalPyExpr env x f with
      | .error e => .error e
      | .ok fv =>
        match evalPyExpr env x a with
        | .error e => .error e
        | .ok av =>
          match fv, av with
          | .mathFun n, .num v => .ok (.num (env.fn n v))
          | .builtinObj "__import__", .str s => .ok (.module s)
          | .builtinObj "abs", .num v => .ok (.num |v|)
          | _, _ => .error .typeError
  | .add l r =>
      match evalPyExpr env x l with
      | .error e => .error e
      | .ok lv =>
        match evalPyExpr env x r with
        | .error e => .error e
        | .ok rv => numBinop (· + ·) lv rv
  | .sub l r =>
      match evalPyExpr env x l with
      | .error e => .error e
      | .ok lv =>
        match evalPyExpr env x r with
        | .error e => .error e
        | .ok rv => numBinop (· - ·) lv rv
  | .mul l r =>
      match evalPyExpr env x l with
      | .error e => .error e
      | .ok lv =>
        match evalPyExpr env x r with
        | .error e => .error e
        | .ok rv => numBinop (· * ·) lv rv
  | .div l r =>
      match evalPyExpr env x l with
      | .error e => .error e
      | .ok lv =>
        match evalPyExpr env x r with
        | .error e => .error e
        | .ok rv =>
          match lv, rv with
          | .num p, .num q => if q = 0 then .error .zeroDivision else .ok (.num (p / q))
          | _, _ => .error .typeError
  | .pow l r =>
      match evalPyExpr env x l with
      | .error e => .error e
      | .ok lv =>
        match evalPyExpr env x r with
        | .error e => .error e
        | .ok rv =>
          match lv, rv with
          | .num p, .num q =>
              if q.den = 1 then
                if p = 0 ∧ q.num < 0 then .error .zeroDivision
                else .ok (.num (p ^ q.num))
              else .ok (.num (env.rpow p q))
          | _, _ => .error .typeError
  | .neg e =>
      match evalPyExpr env x e with
      | .error e => .error e
      | .ok v =>
        match v with
        | .num q => .ok (.num (-q))
        | _ => .error .typeError
  | .attr e fld =>
      match evalPyExpr env x e with
      | .error e => .error e
      | .ok _ => if fld = "__class__" then .ok .obj else .error .attributeError

/-- Result of Python parsing the text `lambda x: {func_str}`: either
the parsed body, or a `SyntaxError` (raised by `eval` before any
evaluation, e.g. for `func_str = "import os"`, a statement, or
`"x +"`, an incomplete expression). -/
inductive PySource where
  | parsed (body : PyExpr)
  | parseFailure (msg : String)

/-- Message text of an exception, as interpolated into the
`ValueError` raised by `create_function`. -/
def excMessage : PyExc → String
  | .zeroDivision => "float division by zero"
  | .nameError n => "name " ++ n ++ " is not defined"
  | .typeError => "unsupported operand or object is not callable"
  | .attributeError => "no such attribute"

/-- Embeds `IntegrationService.create_function`: build
`lambda x: {func_str}` with `eval(func_code, allowed_names,
allowed_names)` (a `SyntaxError` is caught and re-raised as
`ValueError("Invalid function expression: ...")`), smoke-test the
resulting callable at `x = 0.0` (any exception is likewise caught and
re-raised as the same `ValueError`), and otherwise return the
callable. -/
def IntegrationService.create_function (env : NumpyEnv) (func_str : PySource) :
    Except String (ℚ → Except PyExc PyVal) :=
  match func_str with
  | .parseFailure msg => .error ("Invalid function expression: " ++ msg)
  | .parsed body =>
      let func := fun t => evalPyExpr env t body
      match func 0 with
      | .ok _ => .ok func
      | .error e => .error ("Invalid function expression: " ++ excMessage e)

/-! ## Quadrature strategies -/

/-- The tuple `(result, x_values, y_values, error_estimate)` returned
by every strategy's `integrate`. -/
structure QuadResult where
  value : ℚ
  x_values : List ℚ
  y_values : List ℚ
  error_estimate : Option ℚ
deriving DecidableEq

/-- The `i`-th of the `n` evenly spaced points of
`np.linspace(a, b, n)`: `a + i·(b−a)/(n−1)`.  The divisor is the
Python int `n - 1` under the rational cast `(n : ℚ) - 1`. -/
def nodePt (a b : ℚ) (n : ℕ) (i : ℕ) : ℚ := a + (i : ℚ) * ((b - a) / ((n : ℚ) - 1))

/-- Embeds `np.linspace(a, b, n)` under exact rational arithmetic.
For `n = 1` NumPy returns `[a]`, which the node formula also yields
(the `i = 0` term is `a` regardless of the divisor). -/
def linspace (a b : ℚ) (n : ℕ) : List ℚ := (List.range n).map (nodePt a b n)

/-- Elements of a list taken with stride 2 (Python slice step `2`). -/
def takeEveryOther : List ℚ → List ℚ
  | [] => []
  | [x] => [x]
  | x :: _ :: rest => x :: takeEveryOther rest

/-- Embeds the NumPy slice `y[1:-1]`. -/
def sliceInterior (y : List ℚ) : List ℚ := (y.drop 1).dropLast

/-- Embeds the NumPy strided slice `y[1:-1:2]`. -/
def sliceOdd (y : List ℚ) : List ℚ := takeEveryOther ((y.drop 1).dropLast)

/-- Embeds the NumPy strided slice `y[2:-1:2]`. -/
def sliceEvenInterior (y : List ℚ) : List ℚ := takeEveryOther ((y.drop 2).dropLast)

/-- Embeds the body of `TrapezoidalIntegration.integrate` given the
already-computed sample lists `x` and `y = [func(xi) for xi in x]`:
`h = (b - a)/(n - 1)`, the trapezoidal weighted sum
`h·(0.5·y[0] + Σ y[1:-1] + 0.5·y[-1])`, and for `n > 2` the error
estimate `(b−a)³ · |y[2] − 2·y[1] + y[0]|/h² / (12·n²)`. -/
def trapezoidalBody (a b : ℚ) (n : ℕ) (x y : List ℚ) : QuadResult :=
  let h : ℚ := (b - a) / ((n : ℚ) - 1)
  let result := h * ((1 / 2) * y.headD 0 + (sliceInterior y).sum + (1 / 2) * y.getLastD 0)
  let error_estimate : Option ℚ :=
    if 2 < n then
      some ((b - a) ^ 3 * (|y.getD 2 0 - 2 * y.getD 1 0 + y.getD 0 0| / h ^ 2) / (12 * (n : ℚ) ^ 2))
    else none
  ⟨result, x, y, error_estimate⟩

/-- `TrapezoidalIntegration.integrate` for a non-raising callable. -/
def trapezoidal (f : ℚ → ℚ) (a b : ℚ) (n : ℕ) : QuadResult :=
  trapezoidalBody a b n (linspace a b n) ((linspace a b n).map f)

/-- The `n += 1 if n % 2 == 0` adjustment at the top of
`SimpsonIntegration.integrate` ("Ensure n is odd"). -/
def simpsonN (n : ℕ) : ℕ := if n % 2 = 0 then n + 1 else n

/-- Embeds the body of `SimpsonIntegration.integrate` after the odd
adjustment, given the sample lists for the adjusted count `n'`:
`h = (b - a)/(n' - 1)`, Simpson's 1/3 rule
`h/3·(y[0] + y[-1] + 4·Σ y[1:-1:2] + 2·Σ y[2:-1:2])`, and for
`n' > 4` the fourth-difference error estimate scaled by
`(b−a)⁵/(180·n'⁴)`. -/
def simpsonBody (a b : ℚ) (n' : ℕ) (x y : List ℚ) : QuadResult :=
  let h : ℚ := (b - a) / ((n' : ℚ) - 1)
  let result := h / 3 * (y.headD 0 + y.getLastD 0 + 4 * (sliceOdd y).sum + 2 * (sliceEvenInterior y).sum)
  let error_estimate : Option ℚ :=
    if 4 < n' then
      some ((b - a) ^ 5 *
        (|y.getD 4 0 - 4 * y.getD 3 0 + 6 * y.getD 2 0 - 4 * y.getD 1 0 + y.getD 0 0| / h ^ 4) /
        (180 * (n' : ℚ) ^ 4))
    else none
  ⟨result, x, y, error_estimate⟩

/-- `SimpsonIntegration.integrate` for a non-raising callable. -/
def simpson (f : ℚ → ℚ) (a b : ℚ) (n : ℕ) : QuadResult :=
  simpsonBody a b (simpsonN n) (linspace a b (simpsonN n)) ((linspace a b (simpsonN n)).map f)

/-- The midpoint sample nodes: `np.linspace(a + h/2, b - h/2, n)` with
`h = (b - a)/n`. -/
def midNodes (a b : ℚ) (n : ℕ) : List ℚ :=
  let h : ℚ := (b - a) / (n : ℚ)
  linspace (a + h / 2) (b - h / 2) n

/-- Embeds the body of `MidpointIntegration.integrate` given the
midpoint samples `y_mid` (used for the value `h·Σ y_mid` with
`h = (b - a)/n`) and the separately computed boundary samples `x`,
`y` over `np.linspace(a, b, n + 1)` (returned for visualization and
used for the `n > 2` error estimate scaled by `(b−a)³/(24·n²)`). -/
def midpointBody (a b : ℚ) (n : ℕ) (y_mid : List ℚ) (x y : List ℚ) : QuadResult :=
  let h : ℚ := (b - a) / (n : ℚ)
  let result := h * y_mid.sum
  let error_estimate : Option ℚ :=
    if 2 < n then
      some ((b - a) ^ 3 * (|y.getD 2 0 - 2 * y.getD 1 0 + y.getD 0 0| / h ^ 2) / (24 * (n : ℚ) ^ 2))
    else none
  ⟨result, x, y, error_estimate⟩

/-- `MidpointIntegration.integrate` for a non-raising callable. -/
def midpoint (f : ℚ → ℚ) (a b : ℚ) (n : ℕ) : QuadResult :=
  midpointBody a b n ((midNodes a b n).map f)
    (linspace a b (n + 1)) ((linspace a b (n + 1)).map f)

/-- Embeds `np.random.uniform(a, b, n)` against the explicit stream
`us` of unit-interval draws of the hidden global generator: the `i`-th
draw is `a + (b − a)·us i` (NumPy scales exactly this way, also when
`a > b`). -/
def uniform (us : ℕ → ℚ) (a b : ℚ) (n : ℕ) : List ℚ :=
  (List.range n).map (fun i => a + (b - a) * us i)

/-- Embeds `np.mean`. -/
def npMean (l : List ℚ) : ℚ := l.sum / (l.length : ℚ)

/-- Embeds `np.std` (population standard deviation): the square root
of the mean squared deviation.  The square root is interpreted by the
parameter `sqrtQ`; the claims use only that it maps nonnegatives to
nonnegatives, which the real square root does. -/
def npStd (sqrtQ : ℚ → ℚ) (l : List ℚ) : ℚ :=
  sqrtQ (npMean (l.map (fun v => (v - npMean l) ^ 2)))

/-- Embeds the body of `MonteCarloIntegration.integrate` given the
drawn abscissas `x_random` and their values `y_random`: the estimate
`(b − a)·mean(y_random)`, the draw pairs co-sorted by `x` for display
(`np.argsort` plus fancy indexing of both arrays, modelled as a stable
sort of the pairs by first component), and the standard error
`(b − a)·std(y_random)/sqrt(n)`, always present. -/
def monteCarloBody (sqrtQ : ℚ → ℚ) (a b : ℚ) (n : ℕ) (x_random y_random : List ℚ) : QuadResult :=
  let result := (b - a) * npMean y_random
  let pairs := List.insertionSort (fun p q : ℚ × ℚ => p.1 ≤ q.1) (x_random.zip y_random)
  let std_error := (b - a) * npStd sqrtQ y_random / sqrtQ (n : ℚ)
  ⟨result, pairs.map Prod.fst, pairs.map Prod.snd, some std_error⟩

/-- `MonteCarloIntegration.integrate` for a non-raising callable,
reading the global generator stream `us`. -/
def monteCarlo (sqrtQ : ℚ → ℚ) (us : ℕ → ℚ) (f : ℚ → ℚ) (a b : ℚ) (n : ℕ) : QuadResult :=
  monteCarloBody sqrtQ a b n (uniform us a b n) ((uniform us a b n).map f)

/-! ### Strategies over a possibly-raising callable

The strategies' only interaction with the callable is the list
comprehension `[func(xi) for xi in x]`; an exception raised there
propagates out of `integrate` unchanged. -/

/-- Embeds `[func(xi) for xi in x]` for a possibly-raising callable:
left-to-right evaluation, the first raised exception propagates. -/
def mapE (f : ℚ → Except PyExc ℚ) : List ℚ → Except PyExc (List ℚ)
  | [] => .ok []
  | t :: ts =>
      match f t with
      | .error e => .error e
      | .ok y =>
        match mapE f ts with
        | .error e => .error e
        | .ok ys => .ok (y :: ys)

/-- The first exception `f` raises along `l`, if any. -/
def firstExc (f : ℚ → Except PyExc ℚ) : List ℚ → Option PyExc
  | [] => none
  | t :: ts =>
      match f t with
      | .error e => some e
      | .ok _ => firstExc f ts

/-- `TrapezoidalIntegration.integrate` for a possibly-raising callable. -/
def trapezoidalE (f : ℚ → Except PyExc ℚ) (a b : ℚ) (n : ℕ) : Except PyExc QuadResult :=
  match mapE f (linspace a b n) with
  | .error e => .error e
  | .ok y => .ok (trapezoidalBody a b n (linspace a b n) y)

/-- `SimpsonIntegration.integrate` for a possibly-raising callable. -/
def simpsonE (f : ℚ → Except PyExc ℚ) (a b : ℚ) (n : ℕ) : Except PyExc QuadResult :=
  match mapE f (linspace a b (simpsonN n)) with
  | .error e => .error e
  | .ok y => .ok (simpsonBody a b (simpsonN n) (linspace a b (simpsonN n)) y)

/-- `MidpointIntegration.integrate` for a possibly-raising callable
(the midpoint samples are evaluated before the boundary samples, as in
the source). -/
def midpointE (f : ℚ → Except PyExc ℚ) (a b : ℚ) (n : ℕ) : Except PyExc QuadResult :=
  match mapE f (midNodes a b n) with
  | .error e => .error e
  | .ok y_mid =>
    match mapE f (linspace a b (n + 1)) with
    | .error e => .error e
    | .ok y => .ok (midpointBody a b n y_mid (linspace a b (n + 1)) y)

/-- `MonteCarloIntegration.integrate` for a possibly-raising callable. -/
def monteCarloE (sqrtQ : ℚ → ℚ) (us : ℕ → ℚ) (f : ℚ → Except PyExc ℚ) (a b : ℚ) (n : ℕ) :
    Except PyExc QuadResult :=
  match mapE f (uniform us a b n) with
  | .error e => .error e
  | .ok y => .ok (monteCarloBody sqrtQ a b n (uniform us a b n) y)

/-! ## Integration service -/

/-- The `IntegrationMethod` string enum. -/
inductive IntegrationMethod where
  | trapezoidal
  | simpson
  | midpoint
  | monte_carlo
deriving DecidableEq

/-- The `.value` of the string enum. -/
def IntegrationMethod.value : IntegrationMethod → String
  | .trapezoidal => "trapezoidal"
  | .simpson => "simpson"
  | .midpoint => "midpoint"
  | .monte_carlo => "monte_carlo"

/-- The `IntegrationRequest` model (validation `10 ≤ num_points ≤
10000` is performed by pydantic before the service ever runs; the
definitions here take an unconstrained `n` and the theorems carry the
validated range as hypotheses where it matters). -/
structure IntegrationRequest where
  function : PySource
  lower_bound : ℚ
  upper_bound : ℚ
  num_points : ℕ
  method : IntegrationMethod

/-- The `IntegrationResult` model. -/
structure IntegrationResult where
  value : ℚ
  method : String
  num_points : ℕ
  x_values : List ℚ
  y_values : List ℚ
  error_estimate : Option ℚ
deriving DecidableEq

/-- Errors escaping `IntegrationService.integrate`: the `ValueError`
raised by `create_function`, or an exception of the callable
propagating out of a strategy uncaught (the service wraps nothing). -/
inductive CoreError where
  | valueError (msg : String)
  | propagated (e : PyExc)
deriving DecidableEq

/-- A compiled callable used as a strategy integrand: a numeric result
is the sample value; an exception propagates; a non-numeric result
(module, function object, …) makes the strategy arithmetic fail,
modelled as a `TypeError`. -/
def asFloatCallable (fPy : ℚ → Except PyExc PyVal) : ℚ → Except PyExc ℚ := fun t =>
  match fPy t with
  | .ok (.num v) => .ok v
  | .ok _ => .error .typeError
  | .error e => .error e

/-- The `self.strategies[request.method].integrate(...)` dispatch, for
a possibly-raising callable. -/
def runStrategyE (sqrtQ : ℚ → ℚ) (us : ℕ → ℚ) (m : IntegrationMethod)
    (f : ℚ → Except PyExc ℚ) (a b : ℚ) (n : ℕ) : Except PyExc QuadResult :=
  match m with
  | .trapezoidal => trapezoidalE f a b n
  | .simpson => simpsonE f a b n
  | .midpoint => midpointE f a b n
  | .monte_carlo => monteCarloE sqrtQ us f a b n

/-- The same dispatch for a non-raising callable.  The stream `us` of
the hidden global generator is an input of every dispatch, but only
the Monte Carlo strategy reads it. -/
def runStrategy (sqrtQ : ℚ → ℚ) (us : ℕ → ℚ) (m : IntegrationMethod)
    (f : ℚ → ℚ) (a b : ℚ) (n : ℕ) : QuadResult :=
  match m with
  | .trapezoidal => trapezoidal f a b n
  | .simpson => simpson f a b n
  | .midpoint => midpoint f a b n
  | .monte_carlo => monteCarlo sqrtQ us f a b n

/-- Embeds `IntegrationService.integrate`: compile the expression
(`ValueError` propagates), dispatch the strategy on the request's
bounds and `num_points`, and assemble the `IntegrationResult`, echoing
`request.method.value` and the originally requested `num_points` while
`x_values`/`y_values` come from the strategy's output. -/
def IntegrationService.integrate (env : NumpyEnv) (sqrtQ : ℚ → ℚ) (us : ℕ → ℚ)
    (request : IntegrationRequest) : Except CoreError IntegrationResult :=
  match IntegrationService.create_function env request.function with
  | .error msg => .error (.valueError msg)
  | .ok fPy =>
    match runStrategyE sqrtQ us request.method (asFloatCallable fPy)
        request.lower_bound request.upper_bound request.num_points with
    | .error e => .error (.propagated e)
    | .ok out =>
        .ok ⟨out.value, request.method.value, request.num_points,
             out.x_values, out.y_values, out.error_estimate⟩

/-! ## IEEE-style model of the error-estimate arithmetic

The error-estimate formulas divide by `h²` with no guard; at `a = b`
the float computation is `0.0 / 0.0`, which NumPy evaluates to `nan`
(with a runtime warning, not an exception).  The ℚ-valued model above
idealises this away, so the NaN behaviour is captured by re-running
the same source expressions over a four-point IEEE-style value type. -/

/-- A double: a finite (here: rational) number, `nan`, or a signed
infinity.  Signed zero is not distinguished. -/
inductive FP where
  | num (q : ℚ)
  | nan
  | inf
  | ninf
deriving DecidableEq

/-- IEEE negation. -/
def FP.negF : FP → FP
  | .num q => .num (-q)
  | .nan => .nan
  | .inf => .ninf
  | .ninf => .inf

/-- IEEE addition (`inf + (-inf) = nan`, `nan` propagates). -/
def FP.add : FP → FP → FP
  | .nan, _ => .nan
  | _, .nan => .nan
  | .inf, .ninf => .nan
  | .ninf, .inf => .nan
  | .inf, _ => .inf
  | _, .inf => .inf
  | .ninf, _ => .ninf
  | _, .ninf => .ninf
  | .num p, .num q => .num (p + q)

/-- IEEE subtraction. -/
def FP.sub (x y : FP) : FP := FP.add x (FP.negF y)

/-- IEEE multiplication (`0 · ±inf = nan`, `nan` propagates). -/
def FP.mul : FP → FP → FP
  | .nan, _ => .nan
  | _, .nan => .nan
  | .num p, .num q => .num (p * q)
  | .num p, .inf => if p = 0 then .nan else if 0 < p then .inf else .ninf
  | .num p, .ninf => if p = 0 then .nan else if 0 < p then .ninf else .inf
  | .inf, .num q => if q = 0 then .nan else if 0 < q then .inf else .ninf
  | .ninf, .num q => if q = 0 then .nan else if 0 < q then .ninf else .inf
  | .inf, .inf => .inf
  | .inf, .ninf => .ninf
  | .ninf, .inf => .ninf
  | .ninf, .ninf => .inf

/-- IEEE division (`0/0 = nan`, `q/0 = ±inf` otherwise, `inf/inf =
nan`, `nan` propagates; signed zero ignored). -/
def FP.div : FP → FP → FP
  | .nan, _ => .nan
  | _, .nan => .nan
  | .num p, .num q =>
      if q = 0 then (if p = 0 then .nan else if 0 < p then .inf else .ninf)
      else .num (p / q)
  | .num _, .inf => .num 0
  | .num _, .ninf => .num 0
  | .inf, .num q => if 0 ≤ q then .inf else .ninf
  | .ninf, .num q => if 0 ≤ q then .ninf else .inf
  | _, _ => .nan

/-- IEEE absolute value (`np.abs`). -/
def FP.absF : FP → FP
  | .num q => .num |q|
  | .nan => .nan
  | .inf => .inf
  | .ninf => .inf

/-- `x ** k` for a natural literal exponent, as iterated
multiplication (hence `nan ** 0 = 1`, matching IEEE `pow`). -/
def FP.npow (x : FP) : ℕ → FP
  | 0 => .num 1
  | k + 1 => FP.mul x (FP.npow x k)

/-- The trapezoidal error-estimate computation
(`np.abs(y[2] - 2*y[1] + y[0]) / h**2`, then
`(b - a)**3 * second_deriv_approx / (12 * n**2)`) re-run over `FP`
for a callable that returns finite values. -/
def trapezoidalErrorFP (f : ℚ → ℚ) (a b : ℚ) (n : ℕ) : Option FP :=
  let y := (linspace a b n).map (fun xi => FP.num (f xi))
  let h := FP.div (.num (b - a)) (.num ((n : ℚ) - 1))
  if 2 < n then
    some (FP.div
      (FP.mul ((FP.num (b - a)).npow 3)
        (FP.div
          (FP.absF (FP.add (FP.sub (y.getD 2 .nan) (FP.mul (.num 2) (y.getD 1 .nan)))
            (y.getD 0 .nan)))
          (h.npow 2)))
      (.num (12 * (n : ℚ) ^ 2)))
  else none

/-- The midpoint error-estimate computation (divisor `24 * n**2`,
`h = (b - a)/n`, boundary samples over `linspace(a, b, n + 1)`)
re-run over `FP`. -/
def midpointErrorFP (f : ℚ → ℚ) (a b : ℚ) (n : ℕ) : Option FP :=
  let y := (linspace a b (n + 1)).map (fun xi => FP.num (f xi))
  let h := FP.div (.num (b - a)) (.num (n : ℚ))
  if 2 < n then
    some (FP.div
      (FP.mul ((FP.num (b - a)).npow 3)
        (FP.div
          (FP.absF (FP.add (FP.sub (y.getD 2 .nan) (FP.mul (.num 2) (y.getD 1 .nan)))
            (y.getD 0 .nan)))
          (h.npow 2)))
      (.num (24 * (n : ℚ) ^ 2)))
  else none

/-! ## Concrete inputs used in counterexamples and witnesses -/

/-- The all-zeros draw stream (every uniform draw lands on the lower
endpoint). -/
def usZero : ℕ → ℚ := fun _ => 0

/-- The all-halves draw stream (every uniform draw lands midway). -/
def usHalf : ℕ → ℚ := fun _ => 1 / 2

/-- A callable raising at `x = 1` (as `lambda x: 1/(x - 1)` does under
plain Python float arithmetic) and returning a number elsewhere. -/
def fRaise : ℚ → Except PyExc ℚ := fun t =>
  if t = 1 then .error .zeroDivision else .ok (1 / (t - 1))

/-- An arbitrary concrete NumPy math interpretation. -/
def envW : NumpyEnv := ⟨fun _ _ => 0, fun _ => 0, fun _ _ => 0⟩

/-- A concrete square-root interpretation (only its value at
nonnegatives matters, and only its sign there). -/
def sqrtW : ℚ → ℚ := fun q => q

/-- The request `function="x", bounds [0, 4], num_points=4,
method=simpson`: Simpson adjusts the even count 4 to 5 internally. -/
def reqW : IntegrationRequest := ⟨.parsed (.var "x"), 0, 4, 4, .simpson⟩

/-- The result the service produces for `reqW`: value 8, the five
integer nodes 0..4, a zero error estimate (linear integrand), and the
echoed request metadata. -/
def outW : IntegrationResult :=
  ⟨8, "simpson", 4, [0, 1, 2, 3, 4], [0, 1, 2, 3, 4], some 0⟩

/-- The pair ordering `np.argsort` sorts by (first components). -/
instance : IsTotal (ℚ × ℚ) (fun p q => p.1 ≤ q.1) := ⟨fun p q => le_total p.1 q.1⟩

instance : IsTrans (ℚ × ℚ) (fun p q => p.1 ≤ q.1) := ⟨fun _ _ _ h1 h2 => le_trans h1 h2⟩

/-! ## List infrastructure: normal forms over `List.range` -/

lemma range_map_sum (g : ℕ → ℚ) (n : ℕ) :
    ((List.range n).map g).sum = ∑ i ∈ Finset.range n, g i := by
  induction n with
  | zero => simp
  | succ m ih => rw [List.range_succ, List.map_append, List.sum_append,
      Finset.sum_range_succ, ih]; simp

lemma range_map_drop (g : ℕ → ℚ) (n k : ℕ) :
    ((List.range n).map g).drop k = (List.range (n - k)).map (fun i => g (k + i)) := by
  apply List.ext_getElem
  · simp
  · intro i h₁ h₂
    simp only [List.getElem_drop, List.getElem_map, List.getElem_range]

lemma range_map_dropLast (g : ℕ → ℚ) (n : ℕ) :
    ((List.range n).map g).dropLast = (List.range (n - 1)).map g := by
  apply List.ext_getElem
  · simp
  · intro i h₁ h₂
    simp only [List.getElem_dropLast, List.getElem_map, List.getElem_range]

lemma range_map_getD {α : Type} (g : ℕ → α) (n i : ℕ) (d : α) (h : i < n) :
    ((List.range n).map g).getD i d = g i := by
  rw [List.getD_eq_getElem?_getD, List.getElem?_eq_getElem (by simpa using h)]
  simp

lemma range_map_headD (g : ℕ → ℚ) (n : ℕ) (d : ℚ) (h : 0 < n) :
    ((List.range n).map g).headD d = g 0 := by
  rw [List.headD_eq_head?, List.head?_eq_getElem?, List.getElem?_eq_getElem (by simpa using h)]
  simp

lemma range_map_getLastD (g : ℕ → ℚ) (n : ℕ) (d : ℚ) (h : 0 < n) :
    ((List.range n).map g).getLastD d = g (n - 1) := by
  rw [List.getLastD_eq_getLast?, List.getLast?_eq_getElem?]
  have hl : ((List.range n).map g).length = n := by simp
  rw [hl, List.getElem?_eq_getElem (by simp; omega)]
  simp

lemma takeEveryOther_length (l : List ℚ) :
    (takeEveryOther l).length = (l.length + 1) / 2 := by
  induction l using takeEveryOther.induct with
  | case1 => simp [takeEveryOther]
  | case2 => simp [takeEveryOther]
  | case3 x y rest ih => simp [takeEveryOther, ih]; omega

lemma takeEveryOther_getD (l : List ℚ) (i : ℕ) (d : ℚ) :
    (takeEveryOther l).getD i d = l.getD (2 * i) d := by
  induction l using takeEveryOther.induct generalizing i with
  | case1 => simp [takeEveryOther]
  | case2 x =>
      match i with
      | 0 => simp [takeEveryOther]
      | j + 1 =>
          have h1 : 2 * (j + 1) = (2 * j + 1) + 1 := by omega
          simp [takeEveryOther, h1, List.getD_cons_succ, List.getD_nil]
  | case3 x y rest ih =>
      match i with
      | 0 => simp [takeEveryOther]
      | j + 1 =>
          have hteo : (takeEveryOther (x :: y :: rest)) = x :: takeEveryOther rest := rfl
          have h1 : 2 * (j + 1) = (2 * j + 1) + 1 := by omega
          rw [hteo, List.getD_cons_succ, h1, List.getD_cons_succ, List.getD_cons_succ, ih]

lemma takeEveryOther_range_map (g : ℕ → ℚ) (k : ℕ) :
    takeEveryOther ((List.range k).map g) = (List.range ((k + 1) / 2)).map (fun j => g (2 * j)) := by
  apply List.ext_getElem
  · rw [takeEveryOther_length]; simp
  · intro i h₁ h₂
    have hi : i < (k + 1) / 2 := by simpa using h₂
    have h2i : 2 * i < k := by omega
    have hlhs : (takeEveryOther ((List.range k).map g))[i] =
        (takeEveryOther ((List.range k).map g)).getD i 0 :=
      (List.getD_eq_getElem _ 0 h₁).symm
    rw [hlhs, takeEveryOther_getD, range_map_getD g k _ 0 h2i]
    simp only [List.getElem_map, List.getElem_range]

lemma sliceInterior_range_map (g : ℕ → ℚ) (k : ℕ) :
    sliceInterior ((List.range k).map g) = (List.range (k - 2)).map (fun i => g (i + 1)) := by
  unfold sliceInterior
  rw [range_map_drop, range_map_dropLast]
  have h1 : k - 1 - 1 = k - 2 := by omega
  rw [h1]
  apply List.map_congr_left
  intro i _
  rw [Nat.add_comm]

lemma sliceOdd_range_map (g : ℕ → ℚ) (k : ℕ) :
    sliceOdd ((List.range k).map g) = (List.range ((k - 1) / 2)).map (fun j => g (2 * j + 1)) := by
  unfold sliceOdd
  rw [range_map_drop, range_map_dropLast]
  have h1 : k - 1 - 1 = k - 2 := by omega
  rw [h1, takeEveryOther_range_map]
  have h2 : (k - 2 + 1) / 2 = (k - 1) / 2 := by omega
  rw [h2]
  apply List.map_congr_left
  intro j _
  rw [Nat.add_comm]

lemma sliceEvenInterior_range_map (g : ℕ → ℚ) (k : ℕ) :
    sliceEvenInterior ((List.range k).map g) =
      (List.range ((k - 2) / 2)).map (fun j => g (2 * j + 2)) := by
  unfold sliceEvenInterior
  rw [range_map_drop, range_map_dropLast]
  have h1 : k - 2 - 1 = k - 3 := by omega
  rw [h1, takeEveryOther_range_map]
  have h2 : (k - 3 + 1) / 2 = (k - 2) / 2 := by omega
  rw [h2]
  apply List.map_congr_left
  intro j _
  rw [Nat.add_comm]

/-! ## Value normal forms for the strategies -/

lemma linspace_map_eq {α : Type} (f : ℚ → α) (a b : ℚ) (n : ℕ) :
    (linspace a b n).map f = (List.range n).map (fun i => f (nodePt a b n i)) := by
  simp [linspace, List.map_map, Function.comp]

lemma simpsonN_pos (n : ℕ) : 0 < simpsonN n := by
  unfold simpsonN; split <;> omega

lemma simpsonN_odd (n : ℕ) : simpsonN n % 2 = 1 := by
  unfold simpsonN; split <;> omega

lemma trapezoidal_value (f : ℚ → ℚ) (a b : ℚ) (n : ℕ) (hn : 2 ≤ n) :
    (trapezoidal f a b n).value =
      ((b - a) / ((n : ℚ) - 1)) *
        ((1 / 2) * f (nodePt a b n 0) +
          (∑ i ∈ Finset.range (n - 2), f (nodePt a b n (i + 1))) +
          (1 / 2) * f (nodePt a b n (n - 1))) := by
  have hv : (trapezoidal f a b n).value =
      ((b - a) / ((n : ℚ) - 1)) *
        ((1 / 2) * ((linspace a b n).map f).headD 0 +
          (sliceInterior ((linspace a b n).map f)).sum +
          (1 / 2) * ((linspace a b n).map f).getLastD 0) := rfl
  rw [hv, linspace_map_eq, range_map_headD _ _ _ (by omega),
    range_map_getLastD _ _ _ (by omega), sliceInterior_range_map, range_map_sum]

lemma simpson_value (f : ℚ → ℚ) (a b : ℚ) (n : ℕ) :
    (simpson f a b n).value =
      ((b - a) / ((simpsonN n : ℚ) - 1)) / 3 *
        (f (nodePt a b (simpsonN n) 0) + f (nodePt a b (simpsonN n) (simpsonN n - 1)) +
          4 * ∑ j ∈ Finset.range ((simpsonN n - 1) / 2), f (nodePt a b (simpsonN n) (2 * j + 1)) +
          2 * ∑ j ∈ Finset.range ((simpsonN n - 2) / 2), f (nodePt a b (simpsonN n) (2 * j + 2))) := by
  have hv : (simpson f a b n).value =
      ((b - a) / ((simpsonN n : ℚ) - 1)) / 3 *
        (((linspace a b (simpsonN n)).map f).headD 0 +
          ((linspace a b (simpsonN n)).map f).getLastD 0 +
          4 * (sliceOdd ((linspace a b (simpsonN n)).map f)).sum +
          2 * (sliceEvenInterior ((linspace a b (simpsonN n)).map f)).sum) := rfl
  rw [hv, linspace_map_eq, range_map_headD _ _ _ (simpsonN_pos n),
    range_map_getLastD _ _ _ (simpsonN_pos n), sliceOdd_range_map,
    sliceEvenInterior_range_map, range_map_sum, range_map_sum]

lemma midpoint_value (f : ℚ → ℚ) (a b : ℚ) (n : ℕ) :
    (midpoint f a b n).value =
      ((b - a) / (n : ℚ)) *
        ∑ i ∈ Finset.range n,
          f (nodePt (a + ((b - a) / (n : ℚ)) / 2) (b - ((b - a) / (n : ℚ)) / 2) n i) := by
  have hv : (midpoint f a b n).value =
      ((b - a) / (n : ℚ)) * ((midNodes a b n).map f).sum := rfl
  rw [hv, midNodes, linspace_map_eq, range_map_sum]

lemma monteCarlo_value (sqrtQ : ℚ → ℚ) (us : ℕ → ℚ) (f : ℚ → ℚ) (a b : ℚ) (n : ℕ) :
    (monteCarlo sqrtQ us f a b n).value = (b - a) * npMean ((uniform us a b n).map f) := rfl

/-! ## Node arithmetic -/

lemma nodePt_swap (a b : ℚ) (n : ℕ) (i : ℕ) (hn : 2 ≤ n) (hi : i < n) :
    nodePt b a n i = nodePt a b n (n - 1 - i) := by
  unfold nodePt
  have hc : ((n - 1 - i : ℕ) : ℚ) = (n : ℚ) - 1 - (i : ℚ) := by
    have h1 : i ≤ n - 1 := by omega
    rw [Nat.cast_sub h1, Nat.cast_sub (by omega)]
    norm_num
  rw [hc]
  have hne : (n : ℚ) - 1 ≠ 0 := by
    have : (2 : ℚ) ≤ (n : ℚ) := by exact_mod_cast hn
    intro hcon
    nlinarith
  field_simp
  ring

lemma midNode_eq (a b : ℚ) (n : ℕ) (i : ℕ) (hn : 1 ≤ n) (hi : i < n) :
    nodePt (a + ((b - a) / (n : ℚ)) / 2) (b - ((b - a) / (n : ℚ)) / 2) n i =
      a + ((b - a) / (n : ℚ)) / 2 + (i : ℚ) * ((b - a) / (n : ℚ)) := by
  rcases Nat.lt_or_ge n 2 with h2 | h2
  · have hn1 : n = 1 := by omega
    subst hn1
    have hi0 : i = 0 := by omega
    subst hi0
    simp [nodePt]
  · unfold nodePt
    have hne : (n : ℚ) ≠ 0 := by
      intro hcon
      have : n = 0 := by exact_mod_cast hcon
      omega
    have hne1 : (n : ℚ) - 1 ≠ 0 := by
      have : (2 : ℚ) ≤ (n : ℚ) := by exact_mod_cast h2
      intro hcon
      nlinarith
    have hsp : (b - (b - a) / (n : ℚ) / 2 - (a + (b - a) / (n : ℚ) / 2)) / ((n : ℚ) - 1) =
        (b - a) / (n : ℚ) := by
      field_simp
      ring
    rw [hsp]

/-! ## Exception propagation through the sampling loop -/

lemma mapE_pure (g : ℚ → ℚ) (l : List ℚ) :
    mapE (fun t => .ok (g t)) l = .ok (l.map g) := by
  induction l with
  | nil => rfl
  | cons t ts ih => simp [mapE, ih]

lemma mapE_error_iff (f : ℚ → Except PyExc ℚ) (l : List ℚ) :
    ∀ e : PyExc, mapE f l = .error e ↔ firstExc f l = some e := by
  induction l with
  | nil => intro e; simp [mapE, firstExc]
  | cons t ts ih =>
      intro e
      cases hft : f t with
      | error e' => simp [mapE, firstExc, hft]
      | ok y =>
          cases hts : mapE f ts with
          | error e2 =>
              have h2 : firstExc f ts = some e2 := (ih e2).mp hts
              simp [mapE, firstExc, hft, hts, h2]
          | ok ys =>
              have h2 : firstExc f ts = none := by
                cases hfe : firstExc f ts with
                | none => rfl
                | some e3 =>
                    have := (ih e3).mpr hfe
                    rw [hts] at this
                    exact Except.noConfusion this
              simp [mapE, firstExc, hft, hts, h2]

lemma firstExc_none_of_mapE_ok (f : ℚ → Except PyExc ℚ) (l : List ℚ) (ys : List ℚ)
    (h : mapE f l = .ok ys) : firstExc f l = none := by
  cases hfe : firstExc f l with
  | none => rfl
  | some e =>
      have := (mapE_error_iff f l e).mpr hfe
      rw [h] at this
      exact Except.noConfusion this

lemma firstExc_append (f : ℚ → Except PyExc ℚ) (l₁ l₂ : List ℚ) :
    firstExc f (l₁ ++ l₂) =
      (match firstExc f l₁ with
        | some e => some e
        | none => firstExc f l₂) := by
  induction l₁ with
  | nil => simp [firstExc]
  | cons t ts ih =>
      cases hft : f t with
      | error e => simp [firstExc, hft]
      | ok y => simpa [firstExc, hft] using ih

/-! ## Error-estimate projections -/

lemma trapezoidal_errEst (f : ℚ → ℚ) (a b : ℚ) (n : ℕ) :
    (trapezoidal f a b n).error_estimate =
      (if 2 < n then
        some ((b - a) ^ 3 *
          (|((linspace a b n).map f).getD 2 0 - 2 * ((linspace a b n).map f).getD 1 0 +
              ((linspace a b n).map f).getD 0 0| / ((b - a) / ((n : ℚ) - 1)) ^ 2) /
          (12 * (n : ℚ) ^ 2))
      else none) := rfl

lemma simpson_errEst (f : ℚ → ℚ) (a b : ℚ) (n : ℕ) :
    (simpson f a b n).error_estimate =
      (if 4 < simpsonN n then
        some ((b - a) ^ 5 *
          (|((linspace a b (simpsonN n)).map f).getD 4 0 -
              4 * ((linspace a b (simpsonN n)).map f).getD 3 0 +
              6 * ((linspace a b (simpsonN n)).map f).getD 2 0 -
              4 * ((linspace a b (simpsonN n)).map f).getD 1 0 +
              ((linspace a b (simpsonN n)).map f).getD 0 0| /
            ((b - a) / ((simpsonN n : ℚ) - 1)) ^ 4) /
          (180 * (simpsonN n : ℚ) ^ 4))
      else none) := rfl

lemma midpoint_errEst (f : ℚ → ℚ) (a b : ℚ) (n : ℕ) :
    (midpoint f a b n).error_estimate =
      (if 2 < n then
        some ((b - a) ^ 3 *
          (|((linspace a b (n + 1)).map f).getD 2 0 - 2 * ((linspace a b (n + 1)).map f).getD 1 0 +
              ((linspace a b (n + 1)).map f).getD 0 0| / ((b - a) / (n : ℚ)) ^ 2) /
          (24 * (n : ℚ) ^ 2))
      else none) := rfl

lemma monteCarlo_errEst (sqrtQ : ℚ → ℚ) (us : ℕ → ℚ) (f : ℚ → ℚ) (a b : ℚ) (n : ℕ) :
    (monteCarlo sqrtQ us f a b n).error_estimate =
      some ((b - a) * npStd sqrtQ ((uniform us a b n).map f) / sqrtQ (n : ℚ)) := rfl

/-! ## Per-strategy error-propagation equivalences -/

lemma trapezoidalE_error_iff (f : ℚ → Except PyExc ℚ) (a b : ℚ) (n : ℕ) (e : PyExc) :
    trapezoidalE f a b n = .error e ↔ firstExc f (linspace a b n) = some e := by
  unfold trapezoidalE
  cases h1 : mapE f (linspace a b n) with
  | error e1 => rw [(mapE_error_iff f _ e1).mp h1]; simp
  | ok y => simp [firstExc_none_of_mapE_ok f _ _ h1]

lemma simpsonE_error_iff (f : ℚ → Except PyExc ℚ) (a b : ℚ) (n : ℕ) (e : PyExc) :
    simpsonE f a b n = .error e ↔ firstExc f (linspace a b (simpsonN n)) = some e := by
  unfold simpsonE
  cases h1 : mapE f (linspace a b (simpsonN n)) with
  | error e1 => rw [(mapE_error_iff f _ e1).mp h1]; simp
  | ok y => simp [firstExc_none_of_mapE_ok f _ _ h1]

lemma midpointE_error_iff (f : ℚ → Except PyExc ℚ) (a b : ℚ) (n : ℕ) (e : PyExc) :
    midpointE f a b n = .error e ↔
      firstExc f (midNodes a b n ++ linspace a b (n + 1)) = some e := by
  rw [firstExc_append]
  unfold midpointE
  cases h1 : mapE f (midNodes a b n) with
  | error e1 => rw [(mapE_error_iff f _ e1).mp h1]; simp
  | ok ymid =>
      rw [firstExc_none_of_mapE_ok f _ _ h1]
      cases h2 : mapE f (linspace a b (n + 1)) with
      | error e2 => rw [(mapE_error_iff f _ e2).mp h2]; simp
      | ok y => simp [firstExc_none_of_mapE_ok f _ _ h2]

lemma monteCarloE_error_iff (sqrtQ : ℚ → ℚ) (us : ℕ → ℚ) (f : ℚ → Except PyExc ℚ)
    (a b : ℚ) (n : ℕ) (e : PyExc) :
    monteCarloE sqrtQ us f a b n = .error e ↔ firstExc f (uniform us a b n) = some e := by
  unfold monteCarloE
  cases h1 : mapE f (uniform us a b n) with
  | error e1 => rw [(mapE_error_iff f _ e1).mp h1]; simp
  | ok y => simp [firstExc_none_of_mapE_ok f _ _ h1]

/-! ## Constant-stream and replicate computations -/

lemma npMean_replicate (c : ℚ) (n : ℕ) (hn : n ≠ 0) :
    npMean (List.replicate n c) = c := by
  unfold npMean
  rw [List.sum_replicate, List.length_replicate, nsmul_eq_mul]
  have : (n : ℚ) ≠ 0 := Nat.cast_ne_zero.mpr hn
  field_simp

lemma map_const_replicate (C : ℚ) (n : ℕ) :
    (List.range n).map (fun _ : ℕ => C) = List.replicate n C := by
  induction n with
  | zero => rfl
  | succ m ih => rw [List.range_succ, List.map_append, ih, List.replicate_succ']; rfl

/-! ## Claim C1 -/

/-- C1: the claim says `create_function` rejects every identifier
outside the allow-list, in particular `__import__("os")`, and provides
no attribute lookup, import machinery or builtins.  Evaluating the
embedded `create_function` shows the opposite: because `eval` receives
a globals dict with no `__builtins__` key, CPython injects the full
builtins namespace, so `__import__("os")`, `abs(x)` and `x.__class__`
all compile to callables; the syntactically invalid `"import os"` and
`"x +"` and the unresolvable name `"y"` are rejected, and the three
allow-listed examples compile, as the claim states. -/
theorem c1_code_bug_eval (env : NumpyEnv) :
    (IntegrationService.create_function env
      (.parsed (.call (.var "__import__") (.strLit "os")))).isOk = true ∧
    (IntegrationService.create_function env
      (.parsed (.call (.var "abs") (.var "x")))).isOk = true ∧
    (IntegrationService.create_function env
      (.parsed (.attr (.var "x") "__class__"))).isOk = true ∧
    (IntegrationService.create_function env
      (.parsed (.pow (.var "x") (.num 2)))).isOk = true ∧
    (IntegrationService.create_function env
      (.parsed (.add (.call (.var "sin") (.var "x")) (.call (.var "cos") (.var "x"))))).isOk
      = true ∧
    (IntegrationService.create_function env
      (.parsed (.mul (.var "pi") (.var "x")))).isOk = true ∧
    (IntegrationService.create_function env
      (.parseFailure "import os is a statement, not an expression")).isOk = false ∧
    (IntegrationService.create_function env
      (.parseFailure "x + is an incomplete expression")).isOk = false ∧
    (IntegrationService.create_function env (.parsed (.var "y"))).isOk = false :=
  ⟨rfl, rfl, rfl, rfl, rfl, rfl, rfl, rfl, rfl⟩

/-! ## Claim C2 -/

/-- C2 counterexample: a callable raising `ZeroDivisionError` at the
sample point `x = 1` makes `TrapezoidalIntegration.integrate` over
`[1, 3]` with `n = 11` surface exactly that raw `ZeroDivisionError` —
not a distinct `EvaluationError` kind, and nothing carrying the
triggering x-value. -/
theorem c2_counterexample :
    trapezoidalE fRaise 1 3 11 = .error PyExc.zeroDivision := by
  apply (trapezoidalE_error_iff fRaise 1 3 11 PyExc.zeroDivision).mpr
  have hcons : linspace 1 3 11 =
      nodePt 1 3 11 0 :: (List.range 10).map (fun i => nodePt 1 3 11 (i + 1)) := by
    rw [linspace, List.range_succ_eq_map, List.map_cons, List.map_map]
    rfl
  rw [hcons]
  have h0 : nodePt 1 3 11 0 = 1 := by simp [nodePt]
  rw [h0]
  simp [firstExc, fRaise]

/-- C2 amended: over a non-raising callable every strategy returns
normally (no strategy raises anything of its own), and when the
callable raises, the strategy's result is exactly the first exception
the callable raises over the strategy's sample nodes, propagated
unchanged — there is no `EvaluationError` wrapper and no attached
x-value. -/
theorem c2_amended (f : ℚ → Except PyExc ℚ) (g : ℚ → ℚ) (sqrtQ : ℚ → ℚ) (us : ℕ → ℚ)
    (a b : ℚ) (n : ℕ) (e : PyExc) :
    (trapezoidalE (fun t => .ok (g t)) a b n = .ok (trapezoidal g a b n)) ∧
    (simpsonE (fun t => .ok (g t)) a b n = .ok (simpson g a b n)) ∧
    (midpointE (fun t => .ok (g t)) a b n = .ok (midpoint g a b n)) ∧
    (monteCarloE sqrtQ us (fun t => .ok (g t)) a b n = .ok (monteCarlo sqrtQ us g a b n)) ∧
    (trapezoidalE f a b n = .error e ↔ firstExc f (linspace a b n) = some e) ∧
    (simpsonE f a b n = .error e ↔ firstExc f (linspace a b (simpsonN n)) = some e) ∧
    (midpointE f a b n = .error e ↔
      firstExc f (midNodes a b n ++ linspace a b (n + 1)) = some e) ∧
    (monteCarloE sqrtQ us f a b n = .error e ↔ firstExc f (uniform us a b n) = some e) := by
  refine ⟨?_, ?_, ?_, ?_, trapezoidalE_error_iff f a b n e, simpsonE_error_iff f a b n e,
    midpointE_error_iff f a b n e, monteCarloE_error_iff sqrtQ us f a b n e⟩
  · unfold trapezoidalE trapezoidal
    rw [mapE_pure]
  · unfold simpsonE simpson
    rw [mapE_pure]
  · unfold midpointE midpoint
    rw [mapE_pure, mapE_pure]
  · unfold monteCarloE monteCarlo
    rw [mapE_pure]

/-! ## Claim C4 -/

/-- C4: the returned sample counts per strategy: trapezoidal `n`,
Simpson `n` when odd and `n + 1` when even (always an odd count),
midpoint `n + 1` boundary points, Monte Carlo `n` points sorted in
non-decreasing x order; `x_values` and `y_values` always have equal
length. -/
theorem c4_sample_counts (f : ℚ → ℚ) (sqrtQ : ℚ → ℚ) (us : ℕ → ℚ) (a b : ℚ) (n : ℕ) :
    (trapezoidal f a b n).x_values.length = n ∧
    (trapezoidal f a b n).y_values.length = n ∧
    (simpson f a b n).x_values.length = (if n % 2 = 0 then n + 1 else n) ∧
    (simpson f a b n).y_values.length = (if n % 2 = 0 then n + 1 else n) ∧
    (simpson f a b n).x_values.length % 2 = 1 ∧
    (midpoint f a b n).x_values.length = n + 1 ∧
    (midpoint f a b n).y_values.length = n + 1 ∧
    (monteCarlo sqrtQ us f a b n).x_values.length = n ∧
    (monteCarlo sqrtQ us f a b n).y_values.length = n ∧
    List.Sorted (· ≤ ·) (monteCarlo sqrtQ us f a b n).x_values := by
  have hpairs : ∀ g : ℚ × ℚ → ℚ,
      ((List.insertionSort (fun p q : ℚ × ℚ => p.1 ≤ q.1)
        ((uniform us a b n).zip ((uniform us a b n).map f))).map g).length = n := by
    intro g
    rw [List.length_map, List.length_insertionSort, List.length_zip]
    simp [uniform]
  refine ⟨?_, ?_, ?_, ?_, ?_, ?_, ?_, ?_, ?_, ?_⟩
  · show (linspace a b n).length = n
    simp [linspace]
  · show ((linspace a b n).map f).length = n
    simp [linspace]
  · show (linspace a b (simpsonN n)).length = _
    simp [linspace, simpsonN]
  · show ((linspace a b (simpsonN n)).map f).length = _
    simp [linspace, simpsonN]
  · show (linspace a b (simpsonN n)).length % 2 = 1
    have h : (linspace a b (simpsonN n)).length = simpsonN n := by simp [linspace]
    rw [h]
    exact simpsonN_odd n
  · show (linspace a b (n + 1)).length = n + 1
    simp [linspace]
  · show ((linspace a b (n + 1)).map f).length = n + 1
    simp [linspace]
  · exact hpairs Prod.fst
  · exact hpairs Prod.snd
  · have hs := List.sorted_insertionSort (fun p q : ℚ × ℚ => p.1 ≤ q.1)
      ((uniform us a b n).zip ((uniform us a b n).map f))
    exact List.Pairwise.map Prod.fst (fun p q h => h) hs

/-! ## Claim C7 -/

/-- C7: over a zero-width interval every strategy returns the value 0
exactly: every term of each weighted sum carries the step or width
`b − a = 0`.  (Stated for `2 ≤ n`; below that the Python code raises
`ZeroDivisionError` computing `h` rather than returning, and the
request validation enforces `n ≥ 10` anyway.) -/
theorem c7_zero_width (f : ℚ → ℚ) (sqrtQ : ℚ → ℚ) (us : ℕ → ℚ) (a : ℚ) (n : ℕ)
    (hn : 2 ≤ n) :
    (trapezoidal f a a n).value = 0 ∧
    (simpson f a a n).value = 0 ∧
    (midpoint f a a n).value = 0 ∧
    (monteCarlo sqrtQ us f a a n).value = 0 := by
  refine ⟨?_, ?_, ?_, ?_⟩
  · rw [trapezoidal_value f a a n hn]; simp
  · rw [simpson_value]; simp
  · rw [midpoint_value]; simp
  · rw [monteCarlo_value]; simp

/-- C7 witness at `f = id`, `a = 1`, `n = 10`. -/
theorem c7_witness :
    2 ≤ 10 ∧
    ((trapezoidal (fun t => t) 1 1 10).value = 0 ∧
      (simpson (fun t => t) 1 1 10).value = 0 ∧
      (midpoint (fun t => t) 1 1 10).value = 0 ∧
      (monteCarlo sqrtW usHalf (fun t => t) 1 1 10).value = 0) :=
  ⟨by norm_num, c7_zero_width (fun t => t) sqrtW usHalf 1 10 (by norm_num)⟩

/-! ## Claim C10 -/

/-- C10: the trapezoidal, Simpson and midpoint strategies never read
the hidden global random stream, so two runs with the same callable,
bounds and `n` agree on the entire result (value, samples and error
estimate); Monte Carlo reads the stream, and two different stream
states produce different values for identical inputs. -/
theorem c10_determinism (f : ℚ → ℚ) (sqrtQ : ℚ → ℚ) (a b : ℚ) (n : ℕ) (us₁ us₂ : ℕ → ℚ) :
    runStrategy sqrtQ us₁ .trapezoidal f a b n = runStrategy sqrtQ us₂ .trapezoidal f a b n ∧
    runStrategy sqrtQ us₁ .simpson f a b n = runStrategy sqrtQ us₂ .simpson f a b n ∧
    runStrategy sqrtQ us₁ .midpoint f a b n = runStrategy sqrtQ us₂ .midpoint f a b n ∧
    (runStrategy sqrtQ usZero .monte_carlo (fun t => t) 0 1 10).value ≠
      (runStrategy sqrtQ usHalf .monte_carlo (fun t => t) 0 1 10).value := by
  refine ⟨rfl, rfl, rfl, ?_⟩
  have h1 : (runStrategy sqrtQ usZero .monte_carlo (fun t => t) 0 1 10).value =
      (1 - 0) * npMean ((uniform usZero 0 1 10).map (fun t => t)) := rfl
  have h2 : (runStrategy sqrtQ usHalf .monte_carlo (fun t => t) 0 1 10).value =
      (1 - 0) * npMean ((uniform usHalf 0 1 10).map (fun t => t)) := rfl
  have e1 : (uniform usZero 0 1 10).map (fun t => t) = List.replicate 10 (0 : ℚ) := by
    rw [uniform]
    rw [show (fun i : ℕ => (0 : ℚ) + (1 - 0) * usZero i) = fun _ : ℕ => (0 : ℚ) by
      funext i; simp [usZero]]
    rw [map_const_replicate]
    simp
  have e2 : (uniform usHalf 0 1 10).map (fun t => t) = List.replicate 10 ((1 : ℚ) / 2) := by
    rw [uniform]
    rw [show (fun i : ℕ => (0 : ℚ) + (1 - 0) * usHalf i) = fun _ : ℕ => (1 : ℚ) / 2 by
      funext i; simp [usHalf]]
    rw [map_const_replicate]
    simp
  rw [h1, h2, e1, e2, npMean_replicate 0 10 (by norm_num),
    npMean_replicate (1 / 2) 10 (by norm_num)]
  norm_num

/-! ## Reflection of weighted sums -/

lemma sum_range_index_reflect (F G : ℕ → ℚ) (m : ℕ) (h : ∀ j < m, F j = G (m - 1 - j)) :
    ∑ j ∈ Finset.range m, F j = ∑ j ∈ Finset.range m, G j := by
  rw [Finset.sum_congr rfl (fun j hj => h j (Finset.mem_range.mp hj))]
  exact Finset.sum_range_reflect G m

/-! ## Claim C3 -/

/-- C3 counterexample: Monte Carlo does not satisfy per-call sign
reversal.  With the same underlying draw stream (all draws at the unit
interval's left end), integrating the identity over `[0, 1]` samples
only `x = 0` (estimate `0`), while the swapped call over `[1, 0]`
samples only `x = 1` (estimate `(0 − 1)·1 = −1`); `0 ≠ 1`. -/
theorem c3_counterexample :
    ¬ ((monteCarlo sqrtW usZero (fun t => t) 0 1 10).value =
      -(monteCarlo sqrtW usZero (fun t => t) 1 0 10).value) := by
  have h1 : (monteCarlo sqrtW usZero (fun t => t) 0 1 10).value =
      (1 - 0) * npMean ((uniform usZero 0 1 10).map (fun t => t)) := rfl
  have h2 : (monteCarlo sqrtW usZero (fun t => t) 1 0 10).value =
      (0 - 1) * npMean ((uniform usZero 1 0 10).map (fun t => t)) := rfl
  have e1 : (uniform usZero 0 1 10).map (fun t => t) = List.replicate 10 (0 : ℚ) := by
    rw [uniform]
    rw [show (fun i : ℕ => (0 : ℚ) + (1 - 0) * usZero i) = fun _ : ℕ => (0 : ℚ) by
      funext i; simp [usZero]]
    rw [map_const_replicate]
    simp
  have e2 : (uniform usZero 1 0 10).map (fun t => t) = List.replicate 10 (1 : ℚ) := by
    rw [uniform]
    rw [show (fun i : ℕ => (1 : ℚ) + (0 - 1) * usZero i) = fun _ : ℕ => (1 : ℚ) by
      funext i; simp [usZero]]
    rw [map_const_replicate]
    simp
  rw [h1, h2, e1, e2, npMean_replicate 0 10 (by norm_num), npMean_replicate 1 10 (by norm_num)]
  norm_num

/-- C3 amended: the three deterministic strategies satisfy exact sign
reversal under a bound swap — their node sets are mirror images, their
weight patterns are palindromic, and the step `h = (b − a)/…` negates;
Monte Carlo does not satisfy it per call (see the counterexample),
because swapped bounds place the same underlying draws at different
sample points. -/
theorem c3_amended (f : ℚ → ℚ) (a b : ℚ) (n : ℕ) (hn : 2 ≤ n) :
    (trapezoidal f b a n).value = -(trapezoidal f a b n).value ∧
    (simpson f b a n).value = -(simpson f a b n).value ∧
    (midpoint f b a n).value = -(midpoint f a b n).value := by
  refine ⟨?_, ?_, ?_⟩
  · rw [trapezoidal_value f b a n hn, trapezoidal_value f a b n hn]
    have e0 : nodePt b a n 0 = nodePt a b n (n - 1) := by
      simpa using nodePt_swap a b n 0 hn (by omega)
    have eL : nodePt b a n (n - 1) = nodePt a b n 0 := by
      have h := nodePt_swap a b n (n - 1) hn (by omega)
      rwa [Nat.sub_self] at h
    have hs : ∑ i ∈ Finset.range (n - 2), f (nodePt b a n (i + 1)) =
        ∑ i ∈ Finset.range (n - 2), f (nodePt a b n (i + 1)) := by
      apply sum_range_index_reflect
      intro j hj
      rw [nodePt_swap a b n (j + 1) hn (by omega)]
      have hidx : n - 1 - (j + 1) = n - 2 - 1 - j + 1 := by omega
      rw [hidx]
    rw [e0, eL, hs]
    ring
  · have hN2 : 2 ≤ simpsonN n := by unfold simpsonN; split <;> omega
    have hNodd := simpsonN_odd n
    rw [simpson_value f b a n, simpson_value f a b n]
    have e0 : nodePt b a (simpsonN n) 0 = nodePt a b (simpsonN n) (simpsonN n - 1) := by
      simpa using nodePt_swap a b (simpsonN n) 0 hN2 (by omega)
    have eL : nodePt b a (simpsonN n) (simpsonN n - 1) = nodePt a b (simpsonN n) 0 := by
      have h := nodePt_swap a b (simpsonN n) (simpsonN n - 1) hN2 (by omega)
      rwa [Nat.sub_self] at h
    have hodd : ∑ j ∈ Finset.range ((simpsonN n - 1) / 2), f (nodePt b a (simpsonN n) (2 * j + 1)) =
        ∑ j ∈ Finset.range ((simpsonN n - 1) / 2), f (nodePt a b (simpsonN n) (2 * j + 1)) := by
      apply sum_range_index_reflect
      intro j hj
      rw [nodePt_swap a b (simpsonN n) (2 * j + 1) hN2 (by omega)]
      have hidx : simpsonN n - 1 - (2 * j + 1) =
          2 * ((simpsonN n - 1) / 2 - 1 - j) + 1 := by omega
      rw [hidx]
    have heven : ∑ j ∈ Finset.range ((simpsonN n - 2) / 2),
          f (nodePt b a (simpsonN n) (2 * j + 2)) =
        ∑ j ∈ Finset.range ((simpsonN n - 2) / 2), f (nodePt a b (simpsonN n) (2 * j + 2)) := by
      apply sum_range_index_reflect
      intro j hj
      rw [nodePt_swap a b (simpsonN n) (2 * j + 2) hN2 (by omega)]
      have hidx : simpsonN n - 1 - (2 * j + 2) =
          2 * ((simpsonN n - 2) / 2 - 1 - j) + 2 := by omega
      rw [hidx]
    rw [e0, eL, hodd, heven]
    ring
  · rw [midpoint_value f b a n, midpoint_value f a b n]
    have hne : (n : ℚ) ≠ 0 := Nat.cast_ne_zero.mpr (by omega)
    have hsum : ∑ i ∈ Finset.range n,
          f (nodePt (b + ((a - b) / (n : ℚ)) / 2) (a - ((a - b) / (n : ℚ)) / 2) n i) =
        ∑ i ∈ Finset.range n,
          f (nodePt (a + ((b - a) / (n : ℚ)) / 2) (b - ((b - a) / (n : ℚ)) / 2) n i) := by
      apply sum_range_index_reflect
      intro j hj
      rw [midNode_eq b a n j (by omega) hj, midNode_eq a b n (n - 1 - j) (by omega) (by omega)]
      congr 1
      have hc : ((n - 1 - j : ℕ) : ℚ) = (n : ℚ) - 1 - (j : ℚ) := by
        rw [Nat.cast_sub (by omega), Nat.cast_sub (by omega)]
        norm_num
      rw [hc]
      field_simp
      ring
    rw [hsum]
    ring

/-- C3 amended, witness at `f = id`, `[a, b] = [0, 1]`, `n = 10`. -/
theorem c3_witness :
    2 ≤ 10 ∧
    ((trapezoidal (fun t => t) 1 0 10).value = -(trapezoidal (fun t => t) 0 1 10).value ∧
      (simpson (fun t => t) 1 0 10).value = -(simpson (fun t => t) 0 1 10).value ∧
      (midpoint (fun t => t) 1 0 10).value = -(midpoint (fun t => t) 0 1 10).value) :=
  ⟨by norm_num, c3_amended (fun t => t) 0 1 10 (by norm_num)⟩

/-! ## Claim C8 -/

/-- C8: integrating the constant function `c` gives exactly
`c · (b − a)` for all four strategies — for the three deterministic
rules the weights telescope to the interval width, and Monte Carlo's
mean of identical samples is exactly `c` (so the statistical tolerance
of the claim is met exactly, whatever the draws). -/
theorem c8_constant (c : ℚ) (sqrtQ : ℚ → ℚ) (us : ℕ → ℚ) (a b : ℚ) (n : ℕ) (hn : 2 ≤ n) :
    (trapezoidal (fun _ => c) a b n).value = c * (b - a) ∧
    (simpson (fun _ => c) a b n).value = c * (b - a) ∧
    (midpoint (fun _ => c) a b n).value = c * (b - a) ∧
    (monteCarlo sqrtQ us (fun _ => c) a b n).value = c * (b - a) := by
  refine ⟨?_, ?_, ?_, ?_⟩
  · rw [trapezoidal_value _ a b n hn, Finset.sum_const, Finset.card_range, nsmul_eq_mul]
    have hne : (n : ℚ) - 1 ≠ 0 := by
      have h2 : (2 : ℚ) ≤ (n : ℚ) := by exact_mod_cast hn
      intro hc
      nlinarith
    have hc2 : ((n - 2 : ℕ) : ℚ) = (n : ℚ) - 2 := by
      rw [Nat.cast_sub (by omega)]
      norm_num
    rw [hc2]
    field_simp
    ring
  · rw [simpson_value]
    have hN3 : 3 ≤ simpsonN n := by unfold simpsonN; split <;> omega
    have hNodd := simpsonN_odd n
    rw [Finset.sum_const, Finset.card_range, Finset.sum_const, Finset.card_range,
      nsmul_eq_mul, nsmul_eq_mul]
    have hm1 : 1 ≤ (simpsonN n - 1) / 2 := by omega
    have h2 : (simpsonN n - 2) / 2 = (simpsonN n - 1) / 2 - 1 := by omega
    rw [h2]
    have hc1 : (((simpsonN n - 1) / 2 - 1 : ℕ) : ℚ) = (((simpsonN n - 1) / 2 : ℕ) : ℚ) - 1 := by
      rw [Nat.cast_sub hm1]
      norm_num
    rw [hc1]
    have hNm : simpsonN n = 2 * ((simpsonN n - 1) / 2) + 1 := by omega
    have hcN : ((simpsonN n : ℕ) : ℚ) = 2 * (((simpsonN n - 1) / 2 : ℕ) : ℚ) + 1 := by
      exact_mod_cast congrArg (Nat.cast (R := ℚ)) hNm
    rw [hcN]
    have hM : (1 : ℚ) ≤ (((simpsonN n - 1) / 2 : ℕ) : ℚ) := by exact_mod_cast hm1
    have hM0 : (2 : ℚ) * (((simpsonN n - 1) / 2 : ℕ) : ℚ) ≠ 0 := by nlinarith
    have hden : (2 : ℚ) * (((simpsonN n - 1) / 2 : ℕ) : ℚ) + 1 - 1 =
        2 * (((simpsonN n - 1) / 2 : ℕ) : ℚ) := by ring
    rw [hden]
    field_simp
    ring
  · rw [midpoint_value, Finset.sum_const, Finset.card_range, nsmul_eq_mul]
    have hne : (n : ℚ) ≠ 0 := Nat.cast_ne_zero.mpr (by omega)
    field_simp
    ring
  · rw [monteCarlo_value]
    have hmap : (uniform us a b n).map (fun _ => c) =
        List.replicate (uniform us a b n).length c := List.map_const _ c
    have hlen : (uniform us a b n).length = n := by simp [uniform]
    rw [hmap, hlen, npMean_replicate c n (by omega)]
    ring

/-- C8 witness at `c = 5`, `[a, b] = [0, 2]`, `n = 10`. -/
theorem c8_witness :
    2 ≤ 10 ∧
    ((trapezoidal (fun _ => (5 : ℚ)) 0 2 10).value = 5 * (2 - 0) ∧
      (simpson (fun _ => (5 : ℚ)) 0 2 10).value = 5 * (2 - 0) ∧
      (midpoint (fun _ => (5 : ℚ)) 0 2 10).value = 5 * (2 - 0) ∧
      (monteCarlo sqrtW usHalf (fun _ => (5 : ℚ)) 0 2 10).value = 5 * (2 - 0)) :=
  ⟨by norm_num, c8_constant 5 sqrtW usHalf 0 2 10 (by norm_num)⟩

/-! ## Claim C6 -/

/-- C6 counterexample: for the linear integrand `x` over `[0, 1]` with
the validated `n = 10`, the trapezoidal error estimate is present but
exactly `0` (the second finite difference of a linear function
vanishes), not strictly greater than `0` as the claim states. -/
theorem c6_counterexample :
    (trapezoidal (fun t => t) 0 1 10).error_estimate = some 0 ∧ ¬ ((0 : ℚ) < 0) := by
  constructor
  · rw [trapezoidal_errEst, if_pos (by norm_num), linspace_map_eq,
      range_map_getD _ 10 2 0 (by norm_num), range_map_getD _ 10 1 0 (by norm_num),
      range_map_getD _ 10 0 0 (by norm_num)]
    have harg : nodePt 0 1 10 2 - 2 * nodePt 0 1 10 1 + nodePt 0 1 10 0 = 0 := by
      simp [nodePt]
    rw [harg, abs_zero]
    norm_num
  · norm_num

/-- C6 amended: the error estimate is absent exactly when the
strategy's effective sample count is below its minimum — `n ≤ 2` for
trapezoidal and midpoint, and `n ≤ 3` for Simpson (Simpson's guard
tests the adjusted odd count, so the requested `n = 4` becomes 5 and
does get an estimate); Monte Carlo's estimate is always present.
When present and `a < b` the estimate is nonnegative but can be zero
(see the counterexample), and Monte Carlo's is nonnegative whenever
`a ≤ b` and the square-root interpretation maps nonnegatives to
nonnegatives (stated via `Option.getD`, which also covers the absent
case by `0 ≤ 0`). -/
theorem c6_amended (f : ℚ → ℚ) (sqrtQ : ℚ → ℚ) (us : ℕ → ℚ) (a b : ℚ) (n : ℕ)
    (hsqrt : ∀ q : ℚ, 0 ≤ q → 0 ≤ sqrtQ q) :
    ((trapezoidal f a b n).error_estimate = none ↔ n ≤ 2) ∧
    ((midpoint f a b n).error_estimate = none ↔ n ≤ 2) ∧
    ((simpson f a b n).error_estimate = none ↔ n ≤ 3) ∧
    ((monteCarlo sqrtQ us f a b n).error_estimate ≠ none) ∧
    (a < b → 0 ≤ ((trapezoidal f a b n).error_estimate.getD 0)) ∧
    (a < b → 0 ≤ ((midpoint f a b n).error_estimate.getD 0)) ∧
    (a < b → 0 ≤ ((simpson f a b n).error_estimate.getD 0)) ∧
    (a ≤ b → 0 ≤ ((monteCarlo sqrtQ us f a b n).error_estimate.getD 0)) := by
  refine ⟨?_, ?_, ?_, ?_, ?_, ?_, ?_, ?_⟩
  · rw [trapezoidal_errEst]
    by_cases h : 2 < n
    · rw [if_pos h]; simp; omega
    · rw [if_neg h]; simp; omega
  · rw [midpoint_errEst]
    by_cases h : 2 < n
    · rw [if_pos h]; simp; omega
    · rw [if_neg h]; simp; omega
  · rw [simpson_errEst]
    by_cases h : 4 < simpsonN n
    · rw [if_pos h]
      simp
      unfold simpsonN at h
      split at h <;> omega
    · rw [if_neg h]
      simp
      unfold simpsonN at h
      split at h <;> omega
  · rw [monteCarlo_errEst]; simp
  · intro hab
    rw [trapezoidal_errEst]
    by_cases h : 2 < n
    · rw [if_pos h]
      have hba : 0 < b - a := sub_pos.mpr hab
      show (0 : ℚ) ≤ _
      simp only [Option.getD_some]
      apply div_nonneg
      · exact mul_nonneg (le_of_lt (pow_pos hba 3))
          (div_nonneg (abs_nonneg _) (by positivity))
      · positivity
    · rw [if_neg h]; simp
  · intro hab
    rw [midpoint_errEst]
    by_cases h : 2 < n
    · rw [if_pos h]
      have hba : 0 < b - a := sub_pos.mpr hab
      simp only [Option.getD_some]
      apply div_nonneg
      · exact mul_nonneg (le_of_lt (pow_pos hba 3))
          (div_nonneg (abs_nonneg _) (by positivity))
      · positivity
    · rw [if_neg h]; simp
  · intro hab
    rw [simpson_errEst]
    by_cases h : 4 < simpsonN n
    · rw [if_pos h]
      have hba : 0 < b - a := sub_pos.mpr hab
      simp only [Option.getD_some]
      apply div_nonneg
      · exact mul_nonneg (le_of_lt (pow_pos hba 5))
          (div_nonneg (abs_nonneg _) (by positivity))
      · positivity
    · rw [if_neg h]; simp
  · intro hab
    rw [monteCarlo_errEst]
    simp only [Option.getD_some]
    apply div_nonneg
    · apply mul_nonneg (sub_nonneg.mpr hab)
      unfold npStd
      apply hsqrt
      unfold npMean
      apply div_nonneg
      · apply List.sum_nonneg
        intro x hx
        rw [List.mem_map] at hx
        obtain ⟨v, hv, rfl⟩ := hx
        positivity
      · positivity
    · exact hsqrt _ (Nat.cast_nonneg n)

/-- C6 amended, witness: trapezoidal and Monte Carlo instances at
`f = id`, `[a, b] = [0, 1]`, `n = 10`, square root interpreted as the
identity and all draws at the middle of the interval. -/
theorem c6_witness :
    ((trapezoidal (fun t => t) 0 1 10).error_estimate = none ↔ 10 ≤ 2) ∧
    ((monteCarlo sqrtW usHalf (fun t => t) 0 1 10).error_estimate ≠ none) ∧
    (0 ≤ ((trapezoidal (fun t => t) 0 1 10).error_estimate.getD 0)) ∧
    (0 ≤ ((monteCarlo sqrtW usHalf (fun t => t) 0 1 10).error_estimate.getD 0)) :=
  have h := c6_amended (fun t => t) sqrtW usHalf 0 1 10 (fun _ hq => hq)
  ⟨h.1, h.2.2.2.1, h.2.2.2.2.1 (by norm_num), h.2.2.2.2.2.2.2 (by norm_num)⟩

/-! ## Claim C9 -/

/-- C9: with coincident bounds and `n > 2`, the unguarded error
estimates of the trapezoidal and midpoint strategies compute
`0.0 / 0.0` (the finite-difference numerator and `h²` both vanish),
which is IEEE `nan` — the field is present but neither `None` nor a
real number — while the returned integral value is exactly 0. -/
theorem c9_nan_error_estimate (f : ℚ → ℚ) (a : ℚ) (n : ℕ) (hn : 2 < n) :
    trapezoidalErrorFP f a a n = some FP.nan ∧
    midpointErrorFP f a a n = some FP.nan ∧
    (trapezoidal f a a n).value = 0 ∧
    (midpoint f a a n).value = 0 := by
  have hself : ∀ m k : ℕ, nodePt a a m k = a := by
    intro m k
    simp [nodePt]
  refine ⟨?_, ?_, ?_, ?_⟩
  · unfold trapezoidalErrorFP
    rw [if_pos hn, linspace_map_eq (fun xi => FP.num (f xi)) a a n,
      range_map_getD _ n 2 FP.nan (by omega), range_map_getD _ n 1 FP.nan (by omega),
      range_map_getD _ n 0 FP.nan (by omega), hself n 2, hself n 1, hself n 0]
    have hne : ((n : ℚ) - 1) ≠ 0 := by
      have h3 : (3 : ℚ) ≤ (n : ℚ) := by exact_mod_cast hn
      intro hc
      nlinarith
    have hzero : a - a = 0 := sub_self a
    rw [hzero]
    have hh : FP.div (FP.num 0) (FP.num ((n : ℚ) - 1)) = FP.num 0 := by
      simp [FP.div, hne]
    rw [hh]
    have hdiff : FP.add (FP.sub (FP.num (f a)) (FP.mul (FP.num 2) (FP.num (f a))))
        (FP.num (f a)) = FP.num 0 := by
      simp [FP.add, FP.sub, FP.mul, FP.negF]
      ring
    rw [hdiff]
    have habs : FP.absF (FP.num 0) = FP.num 0 := by simp [FP.absF]
    rw [habs]
    have hpow2 : (FP.num (0 : ℚ)).npow 2 = FP.num 0 := by
      show FP.mul (FP.num 0) (FP.mul (FP.num 0) (FP.num 1)) = FP.num 0
      simp [FP.mul]
    rw [hpow2]
    have hdnan : FP.div (FP.num 0) (FP.num 0) = FP.nan := by simp [FP.div]
    rw [hdnan]
    have hpow3 : (FP.num (0 : ℚ)).npow 3 = FP.num 0 := by
      show FP.mul (FP.num 0) (FP.mul (FP.num 0) (FP.mul (FP.num 0) (FP.num 1))) = FP.num 0
      simp [FP.mul]
    rw [hpow3]
    rfl
  · unfold midpointErrorFP
    rw [if_pos hn, linspace_map_eq (fun xi => FP.num (f xi)) a a (n + 1),
      range_map_getD _ (n + 1) 2 FP.nan (by omega), range_map_getD _ (n + 1) 1 FP.nan (by omega),
      range_map_getD _ (n + 1) 0 FP.nan (by omega), hself (n + 1) 2, hself (n + 1) 1,
      hself (n + 1) 0]
    have hne : ((n : ℚ)) ≠ 0 := Nat.cast_ne_zero.mpr (by omega)
    have hzero : a - a = 0 := sub_self a
    rw [hzero]
    have hh : FP.div (FP.num 0) (FP.num (n : ℚ)) = FP.num 0 := by
      simp [FP.div, hne]
    rw [hh]
    have hdiff : FP.add (FP.sub (FP.num (f a)) (FP.mul (FP.num 2) (FP.num (f a))))
        (FP.num (f a)) = FP.num 0 := by
      simp [FP.add, FP.sub, FP.mul, FP.negF]
      ring
    rw [hdiff]
    have habs : FP.absF (FP.num 0) = FP.num 0 := by simp [FP.absF]
    rw [habs]
    have hpow2 : (FP.num (0 : ℚ)).npow 2 = FP.num 0 := by
      show FP.mul (FP.num 0) (FP.mul (FP.num 0) (FP.num 1)) = FP.num 0
      simp [FP.mul]
    rw [hpow2]
    have hdnan : FP.div (FP.num 0) (FP.num 0) = FP.nan := by simp [FP.div]
    rw [hdnan]
    have hpow3 : (FP.num (0 : ℚ)).npow 3 = FP.num 0 := by
      show FP.mul (FP.num 0) (FP.mul (FP.num 0) (FP.mul (FP.num 0) (FP.num 1))) = FP.num 0
      simp [FP.mul]
    rw [hpow3]
    rfl
  · rw [trapezoidal_value f a a n (by omega)]
    simp
  · rw [midpoint_value]
    simp

/-- C9 witness at `f = id`, `a = 5`, `n = 3`. -/
theorem c9_witness :
    2 < 3 ∧
    (trapezoidalErrorFP (fun t => t) 5 5 3 = some FP.nan ∧
      midpointErrorFP (fun t => t) 5 5 3 = some FP.nan ∧
      (trapezoidal (fun t => t) 5 5 3).value = 0 ∧
      (midpoint (fun t => t) 5 5 3).value = 0) :=
  ⟨by norm_num, c9_nan_error_estimate (fun t => t) 5 3 (by norm_num)⟩

/-! ## Claim C5 -/

/-- C5: whatever the strategy does internally, the service's result
echoes the originally requested `num_points` and the requested method
identifier, while the sample lists keep the strategy's actual output
length — in particular `n + 1` samples for Simpson on an even request
and always `n + 1` for midpoint. -/
theorem c5_service_echo (env : NumpyEnv) (sqrtQ : ℚ → ℚ) (us : ℕ → ℚ)
    (req : IntegrationRequest) (out : IntegrationResult)
    (h : IntegrationService.integrate env sqrtQ us req = .ok out) :
    out.num_points = req.num_points ∧
    out.method = req.method.value ∧
    (req.method = .simpson → req.num_points % 2 = 0 →
      out.x_values.length = req.num_points + 1) ∧
    (req.method = .midpoint → out.x_values.length = req.num_points + 1) := by
  unfold IntegrationService.integrate at h
  split at h
  next msg hc => exact absurd h (by simp)
  next fPy hc =>
      split at h
      next e hr => exact absurd h (by simp)
      next o hr =>
          have hout : out = ⟨o.value, req.method.value, req.num_points,
              o.x_values, o.y_values, o.error_estimate⟩ := (Except.ok.inj h).symm
          subst hout
          refine ⟨rfl, rfl, ?_, ?_⟩
          · intro hm he
            rw [hm] at hr
            simp only [runStrategyE] at hr
            unfold simpsonE at hr
            cases hm2 : mapE (asFloatCallable fPy)
                (linspace req.lower_bound req.upper_bound (simpsonN req.num_points)) with
            | error e2 => rw [hm2] at hr; exact absurd hr (by simp)
            | ok y =>
                rw [hm2] at hr
                have ho : o = simpsonBody req.lower_bound req.upper_bound
                    (simpsonN req.num_points)
                    (linspace req.lower_bound req.upper_bound (simpsonN req.num_points)) y :=
                  (Except.ok.inj hr).symm
                subst ho
                show (linspace req.lower_bound req.upper_bound
                  (simpsonN req.num_points)).length = req.num_points + 1
                simp [linspace, simpsonN, he]
          · intro hm
            rw [hm] at hr
            simp only [runStrategyE] at hr
            unfold midpointE at hr
            cases hm2 : mapE (asFloatCallable fPy)
                (midNodes req.lower_bound req.upper_bound req.num_points) with
            | error e2 => rw [hm2] at hr; exact absurd hr (by simp)
            | ok ymid =>
                rw [hm2] at hr
                cases hm3 : mapE (asFloatCallable fPy)
                    (linspace req.lower_bound req.upper_bound (req.num_points + 1)) with
                | error e3 => rw [hm3] at hr; exact absurd hr (by simp)
                | ok y =>
                    rw [hm3] at hr
                    have ho : o = midpointBody req.lower_bound req.upper_bound
                        req.num_points ymid
                        (linspace req.lower_bound req.upper_bound (req.num_points + 1)) y :=
                      (Except.ok.inj hr).symm
                    subst ho
                    show (linspace req.lower_bound req.upper_bound
                      (req.num_points + 1)).length = req.num_points + 1
                    simp [linspace]

/-- C5 witness: running the service on `reqW` (Simpson, even
`num_points = 4`) yields `outW`, whose metadata echoes the request
while its sample lists have the adjusted length 5. -/
theorem c5_witness :
    outW.num_points = reqW.num_points ∧
    outW.method = reqW.method.value ∧
    outW.x_values.length = reqW.num_points + 1 := by
  have hL : linspace 0 4 5 = [0, 1, 2, 3, 4] := by
    norm_num [linspace, nodePt, List.range_succ]
  have h0 : IntegrationService.integrate envW sqrtW usZero reqW =
      .ok ⟨(simpsonBody 0 4 5 (linspace 0 4 5) (linspace 0 4 5)).value, "simpson", 4,
        linspace 0 4 5, linspace 0 4 5,
        (simpsonBody 0 4 5 (linspace 0 4 5) (linspace 0 4 5)).error_estimate⟩ := rfl
  have hv : (simpsonBody 0 4 5 ([0, 1, 2, 3, 4] : List ℚ) [0, 1, 2, 3, 4]).value = 8 := by
    show ((4 - 0 : ℚ) / ((5 : ℕ) - 1)) / 3 *
        (([0, 1, 2, 3, 4] : List ℚ).headD 0 + ([0, 1, 2, 3, 4] : List ℚ).getLastD 0 +
          4 * (sliceOdd [0, 1, 2, 3, 4]).sum + 2 * (sliceEvenInterior [0, 1, 2, 3, 4]).sum) = 8
    norm_num [sliceOdd, sliceEvenInterior, takeEveryOther]
  have he : (simpsonBody 0 4 5 ([0, 1, 2, 3, 4] : List ℚ) [0, 1, 2, 3, 4]).error_estimate =
      some 0 := by
    show (if 4 < 5 then
        some ((4 - 0 : ℚ) ^ 5 *
          (|([0, 1, 2, 3, 4] : List ℚ).getD 4 0 - 4 * ([0, 1, 2, 3, 4] : List ℚ).getD 3 0 +
              6 * ([0, 1, 2, 3, 4] : List ℚ).getD 2 0 -
              4 * ([0, 1, 2, 3, 4] : List ℚ).getD 1 0 +
              ([0, 1, 2, 3, 4] : List ℚ).getD 0 0| / ((4 - 0 : ℚ) / ((5 : ℕ) - 1)) ^ 4) /
          (180 * ((5 : ℕ) : ℚ) ^ 4))
      else none) = some 0
    rw [if_pos (by norm_num)]
    norm_num [List.getD]
  have h : IntegrationService.integrate envW sqrtW usZero reqW = .ok outW := by
    rw [h0, hL, hv, he]
    rfl
  have hecho := c5_service_echo envW sqrtW usZero reqW outW h
  exact ⟨hecho.1, hecho.2.1, hecho.2.2.1 rfl rfl⟩

end NumInt
